import Mathlib

/-!
# The order resource of the two-flag example provider

A shallow embedding of `internal/provider/order_resource.go`: the plan
modifier `theModifier.PlanModifySet`, the `Configure` callback and the four
CRUD handlers of `orderResource`.

The handlers are written against the plugin framework
(`terraform-plugin-framework`), which is a dependency and not part of the
repository.  The fragment of the framework the handlers call is modelled in
the first sections, from the framework's documented behaviour:

* a Go `map[string]T` is an association list with distinct keys listed in
  ascending key order, so that equal maps are equal lists; lookups, lengths
  and iteration act on that list;
* an `attr.Value` is one of the base values `Bool`, `String`, `Object`, `Set`;
* a Go panic (failed type assertion, method call on a nil interface) is an
  explicit error result;
* the data of a plan or state is kept at the type of the resource schema, and
  writing a state validates the set of items: two equal fully known elements
  are the error "Duplicate Set Element", and the state is then left as it was.
-/

namespace Provider

/-! ## Framework fragment: types and values -/

/-- The state of a framework value (`attr.ValueState`). -/
inductive ValueState where
  | null
  | unknown
  | known
deriving DecidableEq, Repr

/-- The framework types (`attr.Type`) that occur here: `types.BoolType`,
`types.StringType`, `types.ObjectType` with its attribute types, and
`types.SetType` with its element type. -/
inductive AttrType where
  | bool
  | string
  | object (attrTypes : List (String × AttrType))
  | set (elemType : AttrType)
deriving Repr

mutual
/-- The method `Equal` of the framework types.  Two object types are equal
when they have the same number of attributes and every attribute of the
first is an attribute of the second with an equal type. -/
def AttrType.Equal : AttrType → AttrType → Bool
  | .bool, .bool => true
  | .string, .string => true
  | .object as, .object bs => as.length == bs.length && AttrType.attrsEqual as bs
  | .set a, .set b => AttrType.Equal a b
  | _, _ => false
/-- The loop of `ObjectType.Equal` over the attribute types of the receiver. -/
def AttrType.attrsEqual : List (String × AttrType) → List (String × AttrType) → Bool
  | [], _ => true
  | (k, v) :: rest, bs =>
    (match bs.lookup k with
     | none => false
     | some w => AttrType.Equal v w) && AttrType.attrsEqual rest bs
end

/-- A `types.Bool` value: null, unknown, or a known boolean. -/
inductive BoolValue where
  | null
  | unknown
  | known (value : Bool)
deriving DecidableEq, Repr

/-- A `types.String` value: null, unknown, or a known string. -/
inductive StringValue where
  | null
  | unknown
  | known (value : String)
deriving DecidableEq, Repr

/-- An element of the `item` block in the data of a plan or state: null,
unknown, or an object with its two flags. -/
inductive RawItem where
  | null
  | unknown
  | known (flag_a flag_b : BoolValue)
deriving DecidableEq, Repr

/-- A value of the data is fully known when neither it nor anything in it is
unknown; null is a known value (`IsFullyKnown`). -/
def RawItem.IsFullyKnown : RawItem → Bool
  | .null => true
  | .unknown => false
  | .known a b => a != .unknown && b != .unknown

/-- The framework values (`attr.Value`) that occur here.  An object value
holds its attribute types, its state and its attribute values; a set value
holds its element type, its state and its elements, in order. -/
inductive Value where
  | bool (v : BoolValue)
  | string (v : StringValue)
  | object (attributeTypes : List (String × AttrType)) (state : ValueState)
      (attributes : List (String × Value))
  | set (elementType : AttrType) (state : ValueState) (elements : List Value)
deriving Repr

/-- The method `Type` of a value. -/
def Value.Type : Value → AttrType
  | .bool _ => .bool
  | .string _ => .string
  | .object attributeTypes _ _ => .object attributeTypes
  | .set elementType _ _ => .set elementType

/-- The method `IsNull` of a value. -/
def Value.IsNull : Value → Bool
  | .bool .null => true
  | .string .null => true
  | .object _ .null _ => true
  | .set _ .null _ => true
  | _ => false

/-- The method `IsUnknown` of a value. -/
def Value.IsUnknown : Value → Bool
  | .bool .unknown => true
  | .string .unknown => true
  | .object _ .unknown _ => true
  | .set _ .unknown _ => true
  | _ => false

/-- The constructor `types.BoolValue(b)`. -/
def BoolValueOf (b : Bool) : Value := .bool (.known b)

/-- A `types.Set` value (`basetypes.SetValue`) on its own: element type,
state and elements. -/
structure SetValue where
  elementType : AttrType
  state : ValueState
  elements : List Value
deriving Repr

/-- The method `Elements` of a set value: a copy of its elements. -/
def SetValue.Elements (s : SetValue) : List Value := s.elements

/-- The method `ElementType` of a set value. -/
def SetValue.ElementType (s : SetValue) : AttrType := s.elementType

/-- The invariant that the framework's constructors give a set value: every
element has a type equal to the element type, and a null or unknown set has no
elements. -/
def SetValue.WellTyped (s : SetValue) : Prop :=
  (∀ e ∈ s.elements, s.elementType.Equal e.Type = true) ∧
    (s.state ≠ .known → s.elements = [])

/-! ## Framework fragment: diagnostics -/

/-- Severity of a diagnostic. -/
inductive Severity where
  | error
  | warning
deriving DecidableEq, Repr

/-- A diagnostic.  `error` and `warning` are the plain diagnostics made from a
summary and a detail; the other constructors are the error diagnostics that
the framework's value constructors, its conversion into Go structs and its
validation of a set emit, kept with the data their detail text is formatted
from. -/
inductive Diagnostic where
  | error (summary detail : String)
  | warning (summary detail : String)
  | missingObjectAttributeValue (name : String) (expected : AttrType)
  | invalidObjectAttributeType (name : String) (expected given : AttrType)
  | extraObjectAttributeValue (name : String) (given : AttrType)
  | invalidSetElementType (index : Nat) (expected given : AttrType)
  | valueConversionError (path : List String) (received : ValueState)
  | duplicateSetElement (path : List String) (value : RawItem)
deriving Repr

/-- The method `Severity` of a diagnostic. -/
def Diagnostic.Severity : Diagnostic → Severity
  | .warning _ _ => .warning
  | _ => .error

/-- The method `Equal` of a diagnostic: same severity, summary and detail. -/
def Diagnostic.Equal : Diagnostic → Diagnostic → Bool
  | .error s d, .error s2 d2 => s == s2 && d == d2
  | .warning s d, .warning s2 d2 => s == s2 && d == d2
  | .missingObjectAttributeValue n t, .missingObjectAttributeValue n2 t2 =>
    n == n2 && t.Equal t2
  | .invalidObjectAttributeType n t g, .invalidObjectAttributeType n2 t2 g2 =>
    n == n2 && t.Equal t2 && g.Equal g2
  | .extraObjectAttributeValue n g, .extraObjectAttributeValue n2 g2 =>
    n == n2 && g.Equal g2
  | .invalidSetElementType i t g, .invalidSetElementType i2 t2 g2 =>
    i == i2 && t.Equal t2 && g.Equal g2
  | .valueConversionError p r, .valueConversionError p2 r2 => p == p2 && r == r2
  | .duplicateSetElement p v, .duplicateSetElement p2 v2 => p == p2 && v == v2
  | _, _ => false

/-- The type `diag.Diagnostics`: a list of diagnostics. -/
abbrev Diagnostics := List Diagnostic

/-- The method `Contains`. -/
def Diagnostics.Contains (diags : Diagnostics) (d : Diagnostic) : Bool :=
  diags.any (fun x => x.Equal d)

/-- The method `Append`: each given diagnostic is added at the end unless an
equal one is already there. -/
def Diagnostics.Append (diags : Diagnostics) (new : Diagnostics) : Diagnostics :=
  new.foldl (fun acc d => if Diagnostics.Contains acc d then acc else acc ++ [d]) diags

/-- The method `HasError`: some diagnostic has error severity. -/
def Diagnostics.HasError (diags : Diagnostics) : Bool :=
  diags.any (fun d => d.Severity == .error)

/-! ## Framework fragment: value constructors -/

/-- The constructor `types.ObjectValue` (`basetypes.NewObjectValue`).  Every
attribute type needs a value of an equal type and every value needs an
attribute type; with an error the result is the unknown object.  Go walks the
two maps in no fixed order; here the errors come in the order of the lists. -/
def NewObjectValue (attributeTypes : List (String × AttrType))
    (attributes : List (String × Value)) : Value × Diagnostics :=
  let diags1 : Diagnostics := attributeTypes.foldl (fun diags nt =>
    match attributes.lookup nt.1 with
    | none => Diagnostics.Append diags [.missingObjectAttributeValue nt.1 nt.2]
    | some attrValue =>
      if !nt.2.Equal attrValue.Type then
        Diagnostics.Append diags [.invalidObjectAttributeType nt.1 nt.2 attrValue.Type]
      else diags) []
  let diags2 : Diagnostics := attributes.foldl (fun diags nv =>
    match attributeTypes.lookup nv.1 with
    | none => Diagnostics.Append diags [.extraObjectAttributeValue nv.1 nv.2.Type]
    | some _ => diags) diags1
  if Diagnostics.HasError diags2 then (.object attributeTypes .unknown [], diags2)
  else (.object attributeTypes .known attributes, [])

/-- The element check of `basetypes.NewSetValue`, from index `idx` on. -/
def NewSetValue.check (elementType : AttrType) : Nat → List Value → Diagnostics → Diagnostics
  | _, [], diags => diags
  | idx, element :: rest, diags =>
    if !elementType.Equal element.Type then
      NewSetValue.check elementType (idx + 1) rest
        (Diagnostics.Append diags [.invalidSetElementType idx elementType element.Type])
    else NewSetValue.check elementType (idx + 1) rest diags

/-- The constructor `basetypes.NewSetValue`.  Every element needs a type equal
to the element type; with an error the result is the unknown set.  Elements
are kept as given: no element is dropped or reordered. -/
def NewSetValue (elementType : AttrType) (elements : List Value) : SetValue × Diagnostics :=
  let diags := NewSetValue.check elementType 0 elements []
  if Diagnostics.HasError diags then (⟨elementType, .unknown, []⟩, diags)
  else (⟨elementType, .known, elements⟩, [])

/-! ## The plan modifier -/

/-- How a Go call can abort instead of returning. -/
inductive GoPanic where
  | typeAssertion
  | nilInterface
deriving DecidableEq, Repr

/-- The fields of `planmodifier.SetRequest` that are values. -/
structure SetRequest where
  ConfigValue : SetValue
  PlanValue : SetValue
  StateValue : SetValue

/-- The fields of `planmodifier.SetResponse` that the modifier can touch. -/
structure SetResponse where
  PlanValue : SetValue
  Diagnostics : Diagnostics

/-- The attribute types of an item object, as `Schema` declares the nested
object of the `item` block: the boolean attributes `flag_a` and `flag_b`. -/
def itemAttrTypes : List (String × AttrType) := [("flag_a", .bool), ("flag_b", .bool)]

/-- The loop of `PlanModifySet` over the config elements that remain.
`planElements` holds the elements planned so far.  The result is the response
with, when the loop ran to its end, the planned elements, and without them
when the loop returned early. -/
def theModifier.PlanModifySet.loop : List Value → List Value → SetResponse →
    Except GoPanic (Option (List Value) × SetResponse)
  | [], planElements, resp => .ok (some planElements, resp)
  | element :: rest, planElements, resp =>
    match element with
    | .object attributeTypes _ attrs =>
      match attrs.lookup "flag_a" with
      | none => .error .nilInterface
      | some a =>
        let flagA : Value := if !a.IsUnknown && !a.IsNull then a else BoolValueOf false
        match attrs.lookup "flag_b" with
        | none => .error .nilInterface
        | some b =>
          let flagB : Value := if !b.IsUnknown && !b.IsNull then b else BoolValueOf false
          let r := NewObjectValue attributeTypes [("flag_a", flagA), ("flag_b", flagB)]
          let resp1 : SetResponse :=
            { resp with Diagnostics := Diagnostics.Append resp.Diagnostics r.2 }
          if Diagnostics.HasError r.2 then .ok (none, resp1)
          else theModifier.PlanModifySet.loop rest (planElements ++ [r.1]) resp1
    | _ => .error .typeAssertion

/-- The method `theModifier.PlanModifySet`.  The response comes in and goes
out; a panic is an error result. -/
def theModifier.PlanModifySet (req : SetRequest) (resp : SetResponse) :
    Except GoPanic SetResponse :=
  match theModifier.PlanModifySet.loop req.ConfigValue.Elements [] resp with
  | .error p => .error p
  | .ok (none, resp1) => .ok resp1
  | .ok (some planElements, resp1) =>
    let r := NewSetValue req.ConfigValue.ElementType planElements
    .ok { PlanValue := r.1, Diagnostics := Diagnostics.Append resp1.Diagnostics r.2 }

/-! ## The wire model and the data of a plan or state -/

/-- The struct `orderItemModel`: order item data. -/
structure orderItemModel where
  FlagA : BoolValue
  FlagB : BoolValue
deriving DecidableEq, Repr

/-- The struct `orderResourceModel`: the resource schema data.  The Go slice
`Items` is `none` when nil and `some` of its entries otherwise. -/
structure orderResourceModel where
  ID : StringValue
  Items : Option (List orderItemModel)
deriving DecidableEq, Repr

/-- The zero value of `orderResourceModel`. -/
def orderResourceModel.zero : orderResourceModel := { ID := .null, Items := none }

/-- The `item` block in the data of a plan or state: null, unknown, or the
elements of the set, in the order the data lists them. -/
inductive RawItems where
  | null
  | unknown
  | known (elements : List RawItem)
deriving DecidableEq, Repr

/-- The data of a plan or state (`Raw`).  The framework keeps it at the type
of the resource schema: an object with the string `id` and the set `item`. -/
inductive RawOrder where
  | null
  | unknown
  | known (id : StringValue) (item : RawItems)
deriving DecidableEq, Repr

/-- The type `tfsdk.Plan`, for the schema of the order resource. -/
structure Plan where
  Raw : RawOrder
deriving DecidableEq, Repr

/-- The type `tfsdk.State`, for the schema of the order resource. -/
structure State where
  Raw : RawOrder
deriving DecidableEq, Repr

/-- Conversion of the elements of the `item` block into `orderItemModel`
structs, from index `idx` on.  A Go struct holds neither a null nor an unknown
object; the conversion stops at the first such element.  (The framework writes
the element itself in the path, where the index stands here.) -/
def decodeItems : Nat → List RawItem → Except Diagnostic (List orderItemModel)
  | _, [] => .ok []
  | idx, .null :: _ => .error (.valueConversionError ["item", toString idx] .null)
  | idx, .unknown :: _ => .error (.valueConversionError ["item", toString idx] .unknown)
  | idx, .known a b :: rest =>
    match decodeItems (idx + 1) rest with
    | .error d => .error d
    | .ok items => .ok ({ FlagA := a, FlagB := b } :: items)

/-- Conversion of plan or state data into an `orderResourceModel`, as the
methods `Get` of a plan and of a state do it.  A null set becomes the nil
slice; an unknown set has no slice to go to; `types.String` and `types.Bool`
fields take every state.  On an error the target keeps its zero value. -/
def decodeOrder : RawOrder → orderResourceModel × Diagnostics
  | .null => (orderResourceModel.zero, [.valueConversionError [] .null])
  | .unknown => (orderResourceModel.zero, [.valueConversionError [] .unknown])
  | .known id .null => ({ ID := id, Items := none }, [])
  | .known _ .unknown => (orderResourceModel.zero, [.valueConversionError ["item"] .unknown])
  | .known id (.known elements) =>
    match decodeItems 0 elements with
    | .error d => (orderResourceModel.zero, [d])
    | .ok items => ({ ID := id, Items := some items }, [])

/-- Conversion of an `orderResourceModel` into the data of a state.  The nil
slice becomes the null set; every entry becomes an object, in order. -/
def encodeOrder (m : orderResourceModel) : RawOrder :=
  .known m.ID
    (match m.Items with
     | none => .null
     | some items => .known (items.map (fun i => .known i.FlagA i.FlagB)))

/-- The method `Get` of a plan, with an `orderResourceModel` as target. -/
def Plan.Get (p : Plan) : orderResourceModel × Diagnostics := decodeOrder p.Raw

/-- The method `Get` of a state, with an `orderResourceModel` as target. -/
def State.Get (s : State) : orderResourceModel × Diagnostics := decodeOrder s.Raw

/-- The inner loop of the validation of a set: every later element equal to
`outer` adds the error "Duplicate Set Element" (one that is already there is
not added again). -/
def SetType.Validate.inner (outer : RawItem) : List RawItem → Diagnostics → Diagnostics
  | [], diags => diags
  | inner :: rest, diags =>
    SetType.Validate.inner outer rest
      (if inner = outer then
        Diagnostics.Append diags [.duplicateSetElement ["item"] inner]
      else diags)

/-- The outer loop of the validation of a set: only a fully known element is
compared with the elements after it. -/
def SetType.Validate.outer : List RawItem → Diagnostics → Diagnostics
  | [], diags => diags
  | outer :: rest, diags =>
    SetType.Validate.outer rest
      (if outer.IsFullyKnown then SetType.Validate.inner outer rest diags else diags)

/-- The validation that the framework runs on the elements of a known set
when it converts a Go slice into a set of the schema: the elements have to be
unique. -/
def SetType.Validate (elements : List RawItem) : Diagnostics :=
  SetType.Validate.outer elements []

/-- The method `Set` of a state, given an `orderResourceModel`.  The fields
of the struct have the types of the schema, so the conversion itself has no
diagnostic, but the set of the items is validated: with an error the state is
left as it was, otherwise its data is replaced. -/
def State.Set (s : State) (m : orderResourceModel) : State × Diagnostics :=
  let diags : Diagnostics :=
    match m.Items with
    | none => []
    | some items => SetType.Validate (items.map (fun i => .known i.FlagA i.FlagB))
  if Diagnostics.HasError diags then (s, diags)
  else ({ Raw := encodeOrder m }, diags)

/-! ## The resource -/

/-- The API client `hashicups.Client` of the dependency, by the fields that
identify it. -/
structure Client where
  HostURL : String
  Token : String
deriving DecidableEq, Repr

/-- A call on the API client that carries or returns an order. -/
inductive ClientCall where
  | CreateOrder
  | GetOrder
  | UpdateOrder
  | DeleteOrder
deriving DecidableEq, Repr

/-- The struct `orderResource`.  The pointer `client` is `none` when nil. -/
structure orderResource where
  client : Option Client
deriving DecidableEq, Repr

/-- The variable `IRRELEVANT_INT`. -/
def IRRELEVANT_INT : Int := 42

/-- The function `strconv.Itoa`: the decimal numeral of an integer. -/
def strconv.Itoa (i : Int) : String := toString i

/-- The field `ProviderData` of a configure request, of the Go type `any`:
the nil interface, a `*hashicups.Client` (possibly a nil pointer), or a value
of another type, given by the name that the verb `%T` prints. -/
inductive ProviderData where
  | nil
  | client (c : Option Client)
  | other (typeName : String)
deriving DecidableEq, Repr

/-- The type `resource.ConfigureRequest`. -/
structure ConfigureRequest where
  ProviderData : ProviderData

/-- The type `resource.ConfigureResponse`. -/
structure ConfigureResponse where
  Diagnostics : Diagnostics

/-- The error that `Configure` reports for provider data of an unexpected
type. -/
def unexpectedConfigureType (typeName : String) : Diagnostic :=
  .error "Unexpected Data Source Configure Type"
    ("Expected *hashicups.Client, got: " ++ typeName ++
      ". Please report this issue to the provider developers.")

/-- The method `orderResource.Configure`.  The receiver and the response come
in and go out. -/
def orderResource.Configure (r : orderResource) (req : ConfigureRequest)
    (resp : ConfigureResponse) : orderResource × ConfigureResponse :=
  match req.ProviderData with
  | .nil => (r, resp)
  | .other typeName =>
    (r, { resp with Diagnostics :=
      Diagnostics.Append resp.Diagnostics [unexpectedConfigureType typeName] })
  | .client client => ({ r with client := client }, resp)

/-- The type `resource.CreateRequest`. -/
structure CreateRequest where
  Plan : Plan

/-- The type `resource.CreateResponse`. -/
structure CreateResponse where
  State : State
  Diagnostics : Diagnostics

/-- The type `resource.ReadRequest`. -/
structure ReadRequest where
  State : State

/-- The type `resource.ReadResponse`. -/
structure ReadResponse where
  State : State
  Diagnostics : Diagnostics

/-- The type `resource.UpdateRequest`. -/
structure UpdateRequest where
  Plan : Plan
  State : State

/-- The type `resource.UpdateResponse`. -/
structure UpdateResponse where
  State : State
  Diagnostics : Diagnostics

/-- The type `resource.DeleteRequest`. -/
structure DeleteRequest where
  State : State

/-- The type `resource.DeleteResponse`. -/
structure DeleteResponse where
  State : State
  Diagnostics : Diagnostics

/-- The method `orderResource.Create`.  The response comes in and goes out;
the second component lists the calls made on `r.client`, in order. -/
def orderResource.Create (_r : orderResource) (req : CreateRequest) (resp : CreateResponse) :
    CreateResponse × List ClientCall :=
  let got := req.Plan.Get
  let resp1 : CreateResponse :=
    { resp with Diagnostics := Diagnostics.Append resp.Diagnostics got.2 }
  if Diagnostics.HasError resp1.Diagnostics then (resp1, [])
  else
    let plan : orderResourceModel :=
      { got.1 with ID := .known (strconv.Itoa IRRELEVANT_INT) }
    let set := resp1.State.Set plan
    let resp2 : CreateResponse :=
      { State := set.1, Diagnostics := Diagnostics.Append resp1.Diagnostics set.2 }
    (resp2, [])

/-- The method `orderResource.Read`. -/
def orderResource.Read (_r : orderResource) (req : ReadRequest) (resp : ReadResponse) :
    ReadResponse × List ClientCall :=
  let got := req.State.Get
  let resp1 : ReadResponse :=
    { resp with Diagnostics := Diagnostics.Append resp.Diagnostics got.2 }
  if Diagnostics.HasError resp1.Diagnostics then (resp1, [])
  else
    let set := resp1.State.Set got.1
    let resp2 : ReadResponse :=
      { State := set.1, Diagnostics := Diagnostics.Append resp1.Diagnostics set.2 }
    (resp2, [])

/-- The method `orderResource.Update`. -/
def orderResource.Update (_r : orderResource) (req : UpdateRequest) (resp : UpdateResponse) :
    UpdateResponse × List ClientCall :=
  let got := req.Plan.Get
  let resp1 : UpdateResponse :=
    { resp with Diagnostics := Diagnostics.Append resp.Diagnostics got.2 }
  if Diagnostics.HasError resp1.Diagnostics then (resp1, [])
  else
    let set := resp1.State.Set got.1
    let resp2 : UpdateResponse :=
      { State := set.1, Diagnostics := Diagnostics.Append resp1.Diagnostics set.2 }
    (resp2, [])

/-- The method `orderResource.Delete`. -/
def orderResource.Delete (_r : orderResource) (req : DeleteRequest) (resp : DeleteResponse) :
    DeleteResponse × List ClientCall :=
  let got := req.State.Get
  let resp1 : DeleteResponse :=
    { resp with Diagnostics := Diagnostics.Append resp.Diagnostics got.2 }
  (resp1, [])


/-! ## Vocabulary of the statements -/

/-- The item object of the schema with the given flags: a known object whose
attributes are the booleans `flag_a` and `flag_b`. -/
def itemObject (fa fb : BoolValue) : Value :=
  .object itemAttrTypes .known [("flag_a", .bool fa), ("flag_b", .bool fb)]

/-- An element is an object carrying the two boolean attributes `flag_a` and
`flag_b`: an item object of the schema, each flag in any state. -/
def IsItemObject (e : Value) : Prop := ∃ fa fb : BoolValue, e = itemObject fa fb

/-- The value of the attribute `name` of an object value, if it has one. -/
def Value.Attribute (v : Value) (name : String) : Option Value :=
  match v with
  | .object _ _ attributes => attributes.lookup name
  | _ => none

/-- A value with null and unknown replaced by the known boolean false. -/
def Value.orFalse (v : Value) : Value :=
  if v.IsNull || v.IsUnknown then BoolValueOf false else v

/-- The planned element that the loop of `PlanModifySet` builds from an item
object, written out. -/
def plannedItem (e : Value) : Value :=
  .object itemAttrTypes .known
    [("flag_a", ((e.Attribute "flag_a").getD (BoolValueOf false)).orFalse),
     ("flag_b", ((e.Attribute "flag_b").getD (BoolValueOf false)).orFalse)]

/-- An element is an object value whose attributes include `flag_a` and
`flag_b`, whatever their types and whatever else it carries. -/
def Value.HasFlags (e : Value) : Prop :=
  ∃ a b : Value, e.Attribute "flag_a" = some a ∧ e.Attribute "flag_b" = some b

/-- The type of the elements of the `item` block. -/
def itemType : AttrType := .object itemAttrTypes

/-- A response as the framework hands it to a plan modifier: the planned value
so far (here unknown) and no diagnostics. -/
def freshSetResponse : SetResponse :=
  { PlanValue := ⟨itemType, .unknown, []⟩, Diagnostics := [] }

/-- A request whose config holds the given item objects. -/
def itemsRequest (elements : List Value) : SetRequest :=
  { ConfigValue := ⟨itemType, .known, elements⟩,
    PlanValue := ⟨itemType, .unknown, []⟩,
    StateValue := ⟨itemType, .null, []⟩ }

/-- A request whose config is a set of two distinct items: one with `flag_a`
null and `flag_b` true, one with `flag_a` false and `flag_b` true. -/
def distinctItemsRequest : SetRequest :=
  itemsRequest [itemObject .null (.known true), itemObject (.known false) (.known true)]

/-- A request whose config is a set of strings with the one element "a". -/
def stringsRequest : SetRequest :=
  { ConfigValue := ⟨.string, .known, [.string (.known "a")]⟩,
    PlanValue := ⟨.string, .unknown, []⟩,
    StateValue := ⟨.string, .null, []⟩ }

/-- A request whose config holds one object with a third attribute `flag_c`
next to the two flags. -/
def extraAttributeRequest : SetRequest :=
  { ConfigValue := ⟨.object [("flag_a", .bool), ("flag_b", .bool), ("flag_c", .bool)], .known,
      [.object [("flag_a", .bool), ("flag_b", .bool), ("flag_c", .bool)] .known
        [("flag_a", .bool .null), ("flag_b", .bool (.known true)), ("flag_c", .bool .null)]]⟩,
    PlanValue := ⟨.object [("flag_a", .bool), ("flag_b", .bool), ("flag_c", .bool)], .unknown, []⟩,
    StateValue := ⟨.object [("flag_a", .bool), ("flag_b", .bool), ("flag_c", .bool)], .null, []⟩ }

/-- A client, for the examples. -/
def exampleClient : Client := { HostURL := "http://localhost:19090", Token := "token" }

/-- The plan of a new order with one item: the id is not known yet, `flag_a`
is true and `flag_b` is false. -/
def examplePlan : Plan :=
  { Raw := .known .unknown (.known [.known (.known true) (.known false)]) }

/-- The state of an order with id "42" and the item of `examplePlan`. -/
def exampleState : State :=
  { Raw := .known (.known "42") (.known [.known (.known true) (.known false)]) }

/-- The elements of the `item` block of plan or state data (none when the
data or the block is null or unknown). -/
def RawOrder.itemElements : RawOrder → List RawItem
  | .known _ (.known elements) => elements
  | _ => []

/-- No fully known element of the list is equal to an element after it. -/
def DistinctKnown (elements : List RawItem) : Prop :=
  elements.Pairwise (fun a b => a.IsFullyKnown = true → b ≠ a)

/-- The plan of a new order with the same item twice: `flag_a` false and
`flag_b` true. -/
def duplicatePlan : Plan :=
  { Raw := .known .unknown
      (.known [.known (.known false) (.known true), .known (.known false) (.known true)]) }

/-- The state of an order with id "42" and the same item twice. -/
def duplicateState : State :=
  { Raw := .known (.known "42")
      (.known [.known (.known false) (.known true), .known (.known false) (.known true)]) }

/-- The response that the framework hands to `Create`: no state yet, no
diagnostics. -/
def freshCreateResponse : CreateResponse := { State := { Raw := .null }, Diagnostics := [] }

/-- The response that the framework hands to `Read` for a prior state: that
state, no diagnostics. -/
def freshReadResponse (prior : State) : ReadResponse := { State := prior, Diagnostics := [] }

/-! ## Lemmas -/

theorem Diagnostics.Append_nil (d : Diagnostics) : Diagnostics.Append d [] = d := rfl

theorem NewObjectValue_item (x y : Value) (hx : x.Type = .bool) (hy : y.Type = .bool) :
    NewObjectValue itemAttrTypes [("flag_a", x), ("flag_b", y)] =
      (.object itemAttrTypes .known [("flag_a", x), ("flag_b", y)], []) := by
  simp [NewObjectValue, itemAttrTypes, List.lookup, hx, hy, AttrType.Equal, Diagnostics.HasError]

theorem loop_itemObject (fa fb : BoolValue) (rest acc : List Value) (resp : SetResponse) :
    theModifier.PlanModifySet.loop (itemObject fa fb :: rest) acc resp =
      theModifier.PlanModifySet.loop rest (acc ++ [plannedItem (itemObject fa fb)]) resp := by
  cases fa <;> cases fb <;>
    simp [theModifier.PlanModifySet.loop, itemObject, List.lookup, Value.IsUnknown, Value.IsNull,
      NewObjectValue_item, BoolValueOf, Value.Type, Diagnostics.Append_nil, Diagnostics.HasError,
      plannedItem, Value.Attribute, Value.orFalse]

theorem loop_items (elems : List Value) (h : ∀ e ∈ elems, IsItemObject e) (acc : List Value)
    (resp : SetResponse) :
    theModifier.PlanModifySet.loop elems acc resp = .ok (some (acc ++ elems.map plannedItem), resp) := by
  induction elems generalizing acc with
  | nil => simp [theModifier.PlanModifySet.loop]
  | cons e rest ih =>
    obtain ⟨fa, fb, rfl⟩ := h e (List.mem_cons_self _ _)
    rw [loop_itemObject, ih (fun x hx => h x (List.mem_cons_of_mem _ hx))]
    simp

theorem NewSetValue_check_ok (et : AttrType) (elems : List Value)
    (h : ∀ e ∈ elems, et.Equal e.Type = true) (idx : Nat) (diags : Diagnostics) :
    NewSetValue.check et idx elems diags = diags := by
  induction elems generalizing idx with
  | nil => rfl
  | cons e rest ih =>
    have he := h e (List.mem_cons_self _ _)
    simp [NewSetValue.check, he, ih (fun x hx => h x (List.mem_cons_of_mem _ hx))]

theorem NewSetValue_ok (et : AttrType) (elems : List Value)
    (h : ∀ e ∈ elems, et.Equal e.Type = true) :
    NewSetValue et elems = (⟨et, .known, elems⟩, []) := by
  simp [NewSetValue, NewSetValue_check_ok et elems h, Diagnostics.HasError]

theorem plannedItem_Type (e : Value) : (plannedItem e).Type = .object itemAttrTypes := rfl

theorem itemObject_Type (e : Value) (h : IsItemObject e) : e.Type = .object itemAttrTypes := by
  obtain ⟨fa, fb, rfl⟩ := h
  rfl

theorem PlanModifySet_items (req : SetRequest) (resp : SetResponse)
    (hwt : req.ConfigValue.WellTyped)
    (hitems : ∀ e ∈ req.ConfigValue.elements, IsItemObject e) :
    theModifier.PlanModifySet req resp =
      .ok { PlanValue := ⟨req.ConfigValue.elementType, .known,
              req.ConfigValue.elements.map plannedItem⟩,
            Diagnostics := resp.Diagnostics } := by
  have hty : ∀ p ∈ req.ConfigValue.elements.map plannedItem,
      req.ConfigValue.elementType.Equal p.Type = true := by
    intro p hp
    obtain ⟨e, he, rfl⟩ := List.mem_map.1 hp
    rw [plannedItem_Type, ← itemObject_Type e (hitems e he)]
    exact hwt.1 e he
  simp [theModifier.PlanModifySet, SetValue.Elements, SetValue.ElementType,
    loop_items _ hitems, NewSetValue_ok _ _ hty, Diagnostics.Append_nil]

theorem Value.orFalse_idem (v : Value) : v.orFalse.orFalse = v.orFalse := by
  unfold Value.orFalse
  split
  · rfl
  · rename_i h
    simp [h]

theorem plannedItem_itemObject (fa fb : BoolValue) :
    plannedItem (itemObject fa fb) =
      itemObject (match fa with | .known b => .known b | _ => .known false)
        (match fb with | .known b => .known b | _ => .known false) := by
  cases fa <;> cases fb <;> rfl

theorem plannedItem_isItemObject (e : Value) (h : IsItemObject e) : IsItemObject (plannedItem e) := by
  obtain ⟨fa, fb, rfl⟩ := h
  exact ⟨_, _, plannedItem_itemObject fa fb⟩

theorem plannedItem_idem (e : Value) : plannedItem (plannedItem e) = plannedItem e := by
  simp [plannedItem, Value.Attribute, List.lookup, Value.orFalse_idem]

theorem plannedItem_Attribute (e : Value) (h : IsItemObject e) (name : String)
    (hn : name = "flag_a" ∨ name = "flag_b") :
    (plannedItem e).Attribute name = (e.Attribute name).map Value.orFalse := by
  obtain ⟨fa, fb, rfl⟩ := h
  rcases hn with rfl | rfl <;> simp [plannedItem, itemObject, Value.Attribute, List.lookup]

theorem Value.orFalse_of_unset (v : Value) (h : v.IsNull = true ∨ v.IsUnknown = true) :
    v.orFalse = BoolValueOf false := by
  rcases h with h | h <;> simp [Value.orFalse, h]

theorem Value.orFalse_BoolValueOf (b : Bool) : (BoolValueOf b).orFalse = BoolValueOf b := rfl

theorem plannedItem_at (elems : List Value) (i : Nat) (e : Value)
    (h : elems[i]? = some e) : (elems.map plannedItem)[i]? = some (plannedItem e) := by
  simp [List.getElem?_map, h]

theorem isItemObject_at (elems : List Value) (h : ∀ e ∈ elems, IsItemObject e)
    (i : Nat) (e : Value) (he : elems[i]? = some e) : IsItemObject e :=
  h e (List.getElem?_mem he)

/-- C1: on a config set whose elements are all item objects (objects carrying
the booleans flag_a and flag_b), PlanModifySet returns with the diagnostics as
they were and a known planned set of as many elements as the config, and at
every position a flag that is null or unknown in the config element is the
known boolean false in the planned element. -/
theorem PlanModifySet_unset_flags_false (req : SetRequest) (resp : SetResponse)
    (hwt : req.ConfigValue.WellTyped)
    (hitems : ∀ e ∈ req.ConfigValue.elements, IsItemObject e) :
    ∃ planned : List Value,
      theModifier.PlanModifySet req resp =
        .ok { PlanValue := ⟨req.ConfigValue.elementType, .known, planned⟩,
              Diagnostics := resp.Diagnostics } ∧
      planned.length = req.ConfigValue.elements.length ∧
      ∀ (i : Nat) (e : Value), req.ConfigValue.elements[i]? = some e →
        ∃ p, planned[i]? = some p ∧
          ∀ name, (name = "flag_a" ∨ name = "flag_b") →
            ∀ v, e.Attribute name = some v → (v.IsNull = true ∨ v.IsUnknown = true) →
              p.Attribute name = some (BoolValueOf false) := by
  refine ⟨req.ConfigValue.elements.map plannedItem, PlanModifySet_items req resp hwt hitems,
    by simp, ?_⟩
  intro i e he
  refine ⟨plannedItem e, plannedItem_at _ i e he, ?_⟩
  intro name hn v hv hunset
  rw [plannedItem_Attribute e (isItemObject_at _ hitems i e he) name hn, hv]
  simp [Value.orFalse_of_unset v hunset]

/-- C2: on a config set whose elements are all item objects, a flag that is a
known boolean in a config element is that same boolean in the planned element
at the same position; the planned value of a flag depends on the config value
of that flag alone; and when every flag of every config element is a known
boolean, the planned elements are the config elements, in the same order. -/
theorem PlanModifySet_known_flags_untouched (req : SetRequest) (resp : SetResponse)
    (hwt : req.ConfigValue.WellTyped)
    (hitems : ∀ e ∈ req.ConfigValue.elements, IsItemObject e) :
    ∃ planned : List Value,
      theModifier.PlanModifySet req resp =
        .ok { PlanValue := ⟨req.ConfigValue.elementType, .known, planned⟩,
              Diagnostics := resp.Diagnostics } ∧
      (∀ (i : Nat) (e : Value), req.ConfigValue.elements[i]? = some e →
        ∃ p, planned[i]? = some p ∧
          ∀ name, (name = "flag_a" ∨ name = "flag_b") →
            ∀ b : Bool, e.Attribute name = some (BoolValueOf b) →
              p.Attribute name = some (BoolValueOf b)) ∧
      (∀ (i j : Nat) (e1 e2 p1 p2 : Value),
        req.ConfigValue.elements[i]? = some e1 → req.ConfigValue.elements[j]? = some e2 →
        planned[i]? = some p1 → planned[j]? = some p2 →
          ∀ name, (name = "flag_a" ∨ name = "flag_b") →
            e1.Attribute name = e2.Attribute name → p1.Attribute name = p2.Attribute name) ∧
      ((∀ e ∈ req.ConfigValue.elements, ∀ name, (name = "flag_a" ∨ name = "flag_b") →
          ∃ b : Bool, e.Attribute name = some (BoolValueOf b)) →
        planned = req.ConfigValue.elements) := by
  refine ⟨req.ConfigValue.elements.map plannedItem, PlanModifySet_items req resp hwt hitems,
    ?_, ?_, ?_⟩
  · intro i e he
    refine ⟨plannedItem e, plannedItem_at _ i e he, ?_⟩
    intro name hn b hb
    rw [plannedItem_Attribute e (isItemObject_at _ hitems i e he) name hn, hb]
    rfl
  · intro i j e1 e2 p1 p2 h1 h2 hp1 hp2 name hn heq
    rw [plannedItem_at _ i e1 h1] at hp1
    rw [plannedItem_at _ j e2 h2] at hp2
    cases hp1
    cases hp2
    rw [plannedItem_Attribute e1 (isItemObject_at _ hitems i e1 h1) name hn,
      plannedItem_Attribute e2 (isItemObject_at _ hitems j e2 h2) name hn, heq]
  · intro hknown
    have hid : ∀ e ∈ req.ConfigValue.elements, plannedItem e = e := by
      intro e he
      obtain ⟨ba, ha⟩ := hknown e he "flag_a" (Or.inl rfl)
      obtain ⟨bb, hb⟩ := hknown e he "flag_b" (Or.inr rfl)
      obtain ⟨fa, fb, rfl⟩ := hitems e he
      simp [itemObject, Value.Attribute, List.lookup, BoolValueOf] at ha hb
      subst ha
      subst hb
      rfl
    calc req.ConfigValue.elements.map plannedItem
        = req.ConfigValue.elements.map id := List.map_congr_left hid
      _ = req.ConfigValue.elements := List.map_id _

/-- C8: on a config set whose elements are all item objects, PlanModifySet
returns a plan value on which it is idempotent (a run whose config is that plan
value returns the same plan value, with the diagnostics as they were), and
every flag of every element of that plan value is a known boolean. -/
theorem PlanModifySet_idempotent (req : SetRequest) (resp : SetResponse)
    (hwt : req.ConfigValue.WellTyped)
    (hitems : ∀ e ∈ req.ConfigValue.elements, IsItemObject e) :
    ∃ resp1 : SetResponse,
      theModifier.PlanModifySet req resp = .ok resp1 ∧
      (∀ (req2 : SetRequest) (resp2 : SetResponse), req2.ConfigValue = resp1.PlanValue →
        theModifier.PlanModifySet req2 resp2 =
          .ok { PlanValue := resp1.PlanValue, Diagnostics := resp2.Diagnostics }) ∧
      (∀ p ∈ resp1.PlanValue.elements, ∀ name, (name = "flag_a" ∨ name = "flag_b") →
        ∃ b : Bool, p.Attribute name = some (BoolValueOf b)) := by
  refine ⟨_, PlanModifySet_items req resp hwt hitems, ?_, ?_⟩
  · intro req2 resp2 hcfg
    have hitems2 : ∀ e ∈ req2.ConfigValue.elements, IsItemObject e := by
      intro e he
      rw [hcfg] at he
      obtain ⟨e0, he0, rfl⟩ := List.mem_map.1 he
      exact plannedItem_isItemObject e0 (hitems e0 he0)
    have hwt2 : req2.ConfigValue.WellTyped := by
      refine ⟨?_, ?_⟩
      · intro e he
        have he2 := he
        rw [hcfg] at he2
        obtain ⟨e0, he0, rfl⟩ := List.mem_map.1 he2
        rw [hcfg, plannedItem_Type, ← itemObject_Type e0 (hitems e0 he0)]
        exact hwt.1 e0 he0
      · intro hs
        rw [hcfg] at hs
        exact absurd rfl hs
    rw [PlanModifySet_items req2 resp2 hwt2 hitems2, hcfg]
    simp [plannedItem_idem]
  · intro p hp name hn
    obtain ⟨e0, he0, rfl⟩ := List.mem_map.1 hp
    obtain ⟨fa, fb, rfl⟩ := hitems e0 he0
    rcases hn with rfl | rfl
    · cases fa <;> simp [plannedItem, itemObject, Value.Attribute, List.lookup, Value.orFalse,
        Value.IsNull, Value.IsUnknown, BoolValueOf]
    · cases fb <;> simp [plannedItem, itemObject, Value.Attribute, List.lookup, Value.orFalse,
        Value.IsNull, Value.IsUnknown, BoolValueOf]

theorem itemsRequest_WellTyped (elements : List Value) (h : ∀ e ∈ elements, IsItemObject e) :
    (itemsRequest elements).ConfigValue.WellTyped := by
  refine ⟨?_, fun hs => absurd rfl hs⟩
  intro e he
  obtain ⟨fa, fb, rfl⟩ := h e he
  rfl

theorem plannedItem_eq_iff (e1 e2 : Value) (h1 : IsItemObject e1) (h2 : IsItemObject e2) :
    plannedItem e1 = plannedItem e2 ↔
      ∀ name, (name = "flag_a" ∨ name = "flag_b") →
        (e1.Attribute name).map Value.orFalse = (e2.Attribute name).map Value.orFalse := by
  obtain ⟨fa, fb, rfl⟩ := h1
  obtain ⟨ga, gb, rfl⟩ := h2
  simp [plannedItem, itemObject, Value.Attribute, List.lookup]

/-- C9: PlanModifySet does not keep set elements distinct.  On the config of
two distinct items (flag_a null, flag_b true) and (flag_a false, flag_b true)
the planned set holds the same element twice; and on every config set of item
objects, the planned elements at two positions are equal exactly when the
config elements there agree, for each flag, after null and unknown are
replaced by false. -/
theorem PlanModifySet_merges_items :
    (distinctItemsRequest.ConfigValue.elements.Nodup ∧
      theModifier.PlanModifySet distinctItemsRequest freshSetResponse =
        .ok { PlanValue := ⟨itemType, .known,
                [itemObject (.known false) (.known true),
                 itemObject (.known false) (.known true)]⟩,
              Diagnostics := [] }) ∧
    (∀ (req : SetRequest) (resp : SetResponse), req.ConfigValue.WellTyped →
      (∀ e ∈ req.ConfigValue.elements, IsItemObject e) →
      ∃ planned : List Value,
        theModifier.PlanModifySet req resp =
          .ok { PlanValue := ⟨req.ConfigValue.elementType, .known, planned⟩,
                Diagnostics := resp.Diagnostics } ∧
        ∀ (i j : Nat) (e1 e2 : Value),
          req.ConfigValue.elements[i]? = some e1 → req.ConfigValue.elements[j]? = some e2 →
          ∃ p1 p2, planned[i]? = some p1 ∧ planned[j]? = some p2 ∧
            (p1 = p2 ↔
              ∀ name, (name = "flag_a" ∨ name = "flag_b") →
                (e1.Attribute name).map Value.orFalse =
                  (e2.Attribute name).map Value.orFalse)) := by
  refine ⟨⟨?_, rfl⟩, ?_⟩
  · simp [distinctItemsRequest, itemsRequest, itemObject]
  · intro req resp hwt hitems
    refine ⟨_, PlanModifySet_items req resp hwt hitems, ?_⟩
    intro i j e1 e2 h1 h2
    exact ⟨plannedItem e1, plannedItem e2, plannedItem_at _ i e1 h1,
      plannedItem_at _ j e2 h2,
      plannedItem_eq_iff e1 e2 (isItemObject_at _ hitems i e1 h1)
        (isItemObject_at _ hitems j e2 h2)⟩

theorem Diagnostic.Severity_eq_of_Equal (d1 d2 : Diagnostic) (h : d1.Equal d2 = true) :
    d1.Severity = d2.Severity := by
  cases d1 <;> cases d2 <;> simp [Diagnostic.Equal, Diagnostic.Severity] at h ⊢

theorem Diagnostics.HasError_append (d1 d2 : Diagnostics) :
    Diagnostics.HasError (d1 ++ d2) = (Diagnostics.HasError d1 || Diagnostics.HasError d2) := by
  simp [Diagnostics.HasError]

theorem Diagnostics.HasError_step (acc : Diagnostics) (d : Diagnostic)
    (h : Diagnostics.HasError acc = true ∨ d.Severity = .error) :
    Diagnostics.HasError (if Diagnostics.Contains acc d then acc else acc ++ [d]) = true := by
  split
  · rename_i hc
    rcases h with h | h
    · exact h
    · simp only [Diagnostics.Contains, List.any_eq_true] at hc
      obtain ⟨x, hx, hxd⟩ := hc
      simp only [Diagnostics.HasError, List.any_eq_true]
      refine ⟨x, hx, ?_⟩
      rw [Diagnostic.Severity_eq_of_Equal x d hxd, h]
      rfl
  · rcases h with h | h
    · simp [Diagnostics.HasError_append, h]
    · simp [Diagnostics.HasError_append, Diagnostics.HasError, h]

theorem Diagnostics.HasError_Append_left (acc new : Diagnostics)
    (h : Diagnostics.HasError acc = true) :
    Diagnostics.HasError (Diagnostics.Append acc new) = true := by
  induction new generalizing acc with
  | nil => exact h
  | cons d rest ih =>
    exact ih _ (Diagnostics.HasError_step acc d (Or.inl h))

theorem Diagnostics.HasError_Append_right (acc new : Diagnostics)
    (h : Diagnostics.HasError new = true) :
    Diagnostics.HasError (Diagnostics.Append acc new) = true := by
  induction new generalizing acc with
  | nil => simp [Diagnostics.HasError] at h
  | cons d rest ih =>
    by_cases hd : d.Severity = .error
    · exact Diagnostics.HasError_Append_left _ rest (Diagnostics.HasError_step acc d (Or.inr hd))
    · have hrest : Diagnostics.HasError rest = true := by
        simpa [Diagnostics.HasError, hd] using h
      exact ih _ hrest

theorem NewObjectValue_cases (ats : List (String × AttrType)) (attrs : List (String × Value)) :
    NewObjectValue ats attrs = (.object ats .known attrs, []) ∨
      Diagnostics.HasError (NewObjectValue ats attrs).2 = true := by
  unfold NewObjectValue
  simp only []
  split
  · rename_i h
    exact Or.inr h
  · exact Or.inl rfl

theorem loop_cons_object (ats : List (String × AttrType)) (st : ValueState)
    (attrs : List (String × Value)) (a b : Value) (rest acc : List Value) (resp : SetResponse)
    (ha : attrs.lookup "flag_a" = some a) (hb : attrs.lookup "flag_b" = some b) :
    ∃ x y : Value,
      theModifier.PlanModifySet.loop (.object ats st attrs :: rest) acc resp =
        if Diagnostics.HasError (NewObjectValue ats [("flag_a", x), ("flag_b", y)]).2 then
          .ok (none, ⟨resp.PlanValue, Diagnostics.Append resp.Diagnostics
            (NewObjectValue ats [("flag_a", x), ("flag_b", y)]).2⟩)
        else
          theModifier.PlanModifySet.loop rest
            (acc ++ [(NewObjectValue ats [("flag_a", x), ("flag_b", y)]).1])
            ⟨resp.PlanValue, Diagnostics.Append resp.Diagnostics
              (NewObjectValue ats [("flag_a", x), ("flag_b", y)]).2⟩ :=
  ⟨if !a.IsUnknown && !a.IsNull then a else BoolValueOf false,
    if !b.IsUnknown && !b.IsNull then b else BoolValueOf false,
    by simp only [theModifier.PlanModifySet.loop, ha, hb]⟩

theorem loop_returns (elems : List Value) (h : ∀ e ∈ elems, e.HasFlags) (acc : List Value)
    (resp : SetResponse) : ∃ out, theModifier.PlanModifySet.loop elems acc resp = .ok out := by
  induction elems generalizing acc resp with
  | nil => exact ⟨_, rfl⟩
  | cons e rest ih =>
    obtain ⟨a, b, ha, hb⟩ := h e (List.mem_cons_self _ _)
    cases e with
    | object ats st attrs =>
      simp only [Value.Attribute] at ha hb
      obtain ⟨x, y, hxy⟩ := loop_cons_object ats st attrs a b rest acc resp ha hb
      rw [hxy]
      split
      · exact ⟨_, rfl⟩
      · exact ih (fun x hx => h x (List.mem_cons_of_mem _ hx)) _ _
    | bool v => simp [Value.Attribute] at ha
    | string v => simp [Value.Attribute] at ha
    | set et st es => simp [Value.Attribute] at ha

theorem loop_spec (elems : List Value) (acc : List Value) (resp : SetResponse)
    (out : Option (List Value) × SetResponse)
    (h : theModifier.PlanModifySet.loop elems acc resp = .ok out) :
    (∃ planned, out = (some planned, resp) ∧
        planned.map Value.Type = acc.map Value.Type ++ elems.map Value.Type) ∨
      (out.1 = none ∧ out.2.PlanValue = resp.PlanValue ∧
        Diagnostics.HasError out.2.Diagnostics = true) := by
  induction elems generalizing acc with
  | nil =>
    simp only [theModifier.PlanModifySet.loop, Except.ok.injEq] at h
    exact Or.inl ⟨acc, h.symm, by simp⟩
  | cons e rest ih =>
    cases e with
    | object ats st attrs =>
      cases ha : attrs.lookup "flag_a" with
      | none => simp [theModifier.PlanModifySet.loop, ha] at h
      | some a =>
        cases hb : attrs.lookup "flag_b" with
        | none => simp [theModifier.PlanModifySet.loop, ha, hb] at h
        | some b =>
          obtain ⟨x, y, hxy⟩ := loop_cons_object ats st attrs a b rest acc resp ha hb
          rw [hxy] at h
          rcases NewObjectValue_cases ats [("flag_a", x), ("flag_b", y)] with hr | hr
          · rw [hr] at h
            simp only [Diagnostics.HasError, List.any_nil, Bool.false_eq_true, if_false] at h
            rcases ih _ h with ⟨planned, ho, hty⟩ | hnone
            · refine Or.inl ⟨planned, ho, ?_⟩
              rw [hty]
              simp [Value.Type]
            · exact Or.inr hnone
          · rw [if_pos hr, Except.ok.injEq] at h
            subst h
            exact Or.inr ⟨rfl, rfl, Diagnostics.HasError_Append_right _ _ hr⟩
    | bool v => simp [theModifier.PlanModifySet.loop] at h
    | string v => simp [theModifier.PlanModifySet.loop] at h
    | set et st es => simp [theModifier.PlanModifySet.loop] at h

/-- C7, as stated, fails: on a config that is a set of strings PlanModifySet
does not return; it aborts on the type assertion. -/
theorem PlanModifySet_strings_panics :
    stringsRequest.ConfigValue.WellTyped ∧
      theModifier.PlanModifySet stringsRequest freshSetResponse = .error .typeAssertion := by
  refine ⟨⟨?_, fun hs => absurd rfl hs⟩, rfl⟩
  intro e he
  simp [stringsRequest] at he
  subst he
  rfl

/-- C7, amended: on every config set value, PlanModifySet returns whenever
every element is an object value whose attributes include flag_a and flag_b;
and whenever it returns, either it has set the plan value to a known set of as
many elements as the config and left the diagnostics as they were, or the
diagnostics hold an error and the plan value is as it was on entry. -/
theorem PlanModifySet_returns_plan_or_error (req : SetRequest) (resp : SetResponse)
    (hwt : req.ConfigValue.WellTyped) :
    ((∀ e ∈ req.ConfigValue.elements, e.HasFlags) →
      ∃ resp1, theModifier.PlanModifySet req resp = .ok resp1) ∧
    (∀ resp1, theModifier.PlanModifySet req resp = .ok resp1 →
      (resp1.Diagnostics = resp.Diagnostics ∧
        resp1.PlanValue.elementType = req.ConfigValue.elementType ∧
        resp1.PlanValue.state = .known ∧
        resp1.PlanValue.elements.length = req.ConfigValue.elements.length) ∨
      (Diagnostics.HasError resp1.Diagnostics = true ∧
        resp1.PlanValue = resp.PlanValue)) := by
  constructor
  · intro hflags
    obtain ⟨out, hout⟩ := loop_returns req.ConfigValue.elements hflags [] resp
    unfold theModifier.PlanModifySet
    simp only [SetValue.Elements]
    rw [hout]
    rcases out with ⟨_ | planned, resp1⟩
    · exact ⟨_, rfl⟩
    · exact ⟨_, rfl⟩
  · intro resp1 h
    unfold theModifier.PlanModifySet at h
    simp only [SetValue.Elements, SetValue.ElementType] at h
    cases hl : theModifier.PlanModifySet.loop req.ConfigValue.elements [] resp with
    | error p => simp [hl] at h
    | ok out =>
      rw [hl] at h
      rcases loop_spec _ _ _ _ hl with ⟨planned, ho, hty⟩ | ⟨hnone, hpv, herr⟩
      · subst ho
        simp only [Except.ok.injEq] at h
        have htypes : ∀ p ∈ planned, req.ConfigValue.elementType.Equal p.Type = true := by
          intro p hp
          have hmem : p.Type ∈ planned.map Value.Type := List.mem_map_of_mem _ hp
          rw [hty] at hmem
          simp only [List.map_nil, List.nil_append] at hmem
          obtain ⟨e, he, hte⟩ := List.mem_map.1 hmem
          rw [← hte]
          exact hwt.1 e he
        rw [NewSetValue_ok _ _ htypes] at h
        subst h
        have hlen : planned.length = req.ConfigValue.elements.length := by
          have := congrArg List.length hty
          simpa using this
        exact Or.inl ⟨rfl, rfl, rfl, hlen⟩
      · rcases out with ⟨o, r⟩
        simp only at hnone hpv herr
        subst hnone
        simp only [Except.ok.injEq] at h
        subst h
        exact Or.inr ⟨herr, hpv⟩

theorem Diagnostics.HasError_duplicate (path : List String) (v : RawItem) :
    Diagnostics.HasError [Diagnostic.duplicateSetElement path v] = true := rfl

theorem SetType.Validate.inner_of_ne (outer : RawItem) (rest : List RawItem)
    (h : ∀ b ∈ rest, b ≠ outer) (diags : Diagnostics) :
    SetType.Validate.inner outer rest diags = diags := by
  induction rest generalizing diags with
  | nil => rfl
  | cons b l ih =>
    have hb : b ≠ outer := h b (List.mem_cons_self _ _)
    simp only [SetType.Validate.inner, hb, if_false]
    exact ih (fun x hx => h x (List.mem_cons_of_mem _ hx)) diags

theorem SetType.Validate.inner_mono (outer : RawItem) (rest : List RawItem)
    (diags : Diagnostics) (h : Diagnostics.HasError diags = true) :
    Diagnostics.HasError (SetType.Validate.inner outer rest diags) = true := by
  induction rest generalizing diags with
  | nil => exact h
  | cons b l ih =>
    simp only [SetType.Validate.inner]
    apply ih
    split
    · exact Diagnostics.HasError_Append_left _ _ h
    · exact h

theorem SetType.Validate.inner_of_mem (outer : RawItem) (rest : List RawItem)
    (h : outer ∈ rest) (diags : Diagnostics) :
    Diagnostics.HasError (SetType.Validate.inner outer rest diags) = true := by
  induction rest generalizing diags with
  | nil => simp at h
  | cons b l ih =>
    simp only [SetType.Validate.inner]
    by_cases hb : b = outer
    · apply SetType.Validate.inner_mono
      rw [if_pos hb]
      exact Diagnostics.HasError_Append_right _ _ (Diagnostics.HasError_duplicate _ _)
    · rw [if_neg hb]
      rcases List.mem_cons.1 h with h1 | h1
      · exact absurd h1.symm hb
      · exact ih h1 diags

theorem SetType.Validate.outer_of_distinct (elements : List RawItem)
    (h : DistinctKnown elements) (diags : Diagnostics) :
    SetType.Validate.outer elements diags = diags := by
  induction elements generalizing diags with
  | nil => rfl
  | cons a l ih =>
    have hcons := List.pairwise_cons.1 h
    simp only [SetType.Validate.outer]
    rw [ih hcons.2]
    split
    · rename_i hk
      exact SetType.Validate.inner_of_ne a l (fun b hb => hcons.1 b hb hk) diags
    · rfl

theorem SetType.Validate.outer_mono (elements : List RawItem) (diags : Diagnostics)
    (h : Diagnostics.HasError diags = true) :
    Diagnostics.HasError (SetType.Validate.outer elements diags) = true := by
  induction elements generalizing diags with
  | nil => exact h
  | cons a l ih =>
    simp only [SetType.Validate.outer]
    apply ih
    split
    · exact SetType.Validate.inner_mono a l diags h
    · exact h

theorem SetType.Validate.outer_of_duplicate (elements : List RawItem)
    (h : ¬ DistinctKnown elements) (diags : Diagnostics) :
    Diagnostics.HasError (SetType.Validate.outer elements diags) = true := by
  induction elements generalizing diags with
  | nil => exact absurd List.Pairwise.nil h
  | cons a l ih =>
    simp only [SetType.Validate.outer]
    by_cases hl : DistinctKnown l
    · have hhead : ¬ ∀ b ∈ l, a.IsFullyKnown = true → b ≠ a := fun hall =>
        h (List.pairwise_cons.2 ⟨hall, hl⟩)
      have hex : ∃ b, b ∈ l ∧ a.IsFullyKnown = true ∧ b = a := by
        by_contra hno
        apply hhead
        intro b hb hk hba
        exact hno ⟨b, hb, hk, hba⟩
      obtain ⟨b, hb, hk, rfl⟩ := hex
      apply SetType.Validate.outer_mono
      rw [if_pos hk]
      exact SetType.Validate.inner_of_mem b l hb diags
    · exact ih hl _

theorem State.Set_of_distinct (s : State) (m : orderResourceModel)
    (h : DistinctKnown (encodeOrder m).itemElements) :
    State.Set s m = ({ Raw := encodeOrder m }, []) := by
  cases m with
  | mk id items =>
    cases items with
    | none => rfl
    | some l =>
      have hv : SetType.Validate (l.map (fun i => RawItem.known i.FlagA i.FlagB)) = [] :=
        SetType.Validate.outer_of_distinct _ h []
      simp only [State.Set, hv]
      rfl

theorem State.Set_of_duplicate (s : State) (m : orderResourceModel)
    (h : ¬ DistinctKnown (encodeOrder m).itemElements) :
    (State.Set s m).1 = s ∧ Diagnostics.HasError (State.Set s m).2 = true := by
  cases m with
  | mk id items =>
    cases items with
    | none => exact absurd List.Pairwise.nil h
    | some l =>
      have hv : Diagnostics.HasError
          (SetType.Validate (l.map (fun i => RawItem.known i.FlagA i.FlagB))) = true :=
        SetType.Validate.outer_of_duplicate _ h []
      simp only [State.Set, hv, if_true]
      exact ⟨trivial, trivial⟩

theorem decodeItems_encode (elements : List RawItem) (idx : Nat) (items : List orderItemModel)
    (h : decodeItems idx elements = .ok items) :
    items.map (fun i => RawItem.known i.FlagA i.FlagB) = elements := by
  induction elements generalizing idx items with
  | nil =>
    simp only [decodeItems, Except.ok.injEq] at h
    subst h
    rfl
  | cons e rest ih =>
    cases e with
    | null => simp [decodeItems] at h
    | unknown => simp [decodeItems] at h
    | known a b =>
      simp only [decodeItems] at h
      cases hr : decodeItems (idx + 1) rest with
      | error d => simp [hr] at h
      | ok items1 =>
        simp only [hr, Except.ok.injEq] at h
        subst h
        simp [ih (idx + 1) items1 hr]

theorem encode_decodeItems (items : List orderItemModel) (idx : Nat) :
    decodeItems idx (items.map (fun i => RawItem.known i.FlagA i.FlagB)) = .ok items := by
  induction items generalizing idx with
  | nil => rfl
  | cons i rest ih => simp [decodeItems, ih]

theorem decodeOrder_encodeOrder (m : orderResourceModel) :
    decodeOrder (encodeOrder m) = (m, []) := by
  cases m with
  | mk id items =>
    cases items with
    | none => rfl
    | some l => simp [encodeOrder, decodeOrder, encode_decodeItems]

theorem decodeOrder_ok (raw : RawOrder) (h : Diagnostics.HasError (decodeOrder raw).2 = false) :
    ∃ id item, raw = .known id item ∧ (decodeOrder raw).2 = [] ∧
      (decodeOrder raw).1.ID = id ∧
      encodeOrder (decodeOrder raw).1 = raw ∧
      ∀ s : StringValue, encodeOrder { (decodeOrder raw).1 with ID := s } = .known s item := by
  cases raw with
  | null => simp [decodeOrder, Diagnostics.HasError, Diagnostic.Severity] at h
  | unknown => simp [decodeOrder, Diagnostics.HasError, Diagnostic.Severity] at h
  | known id item =>
    refine ⟨id, item, rfl, ?_⟩
    cases item with
    | null => exact ⟨rfl, rfl, rfl, fun _ => rfl⟩
    | unknown => simp [decodeOrder, Diagnostics.HasError, Diagnostic.Severity] at h
    | known elements =>
      cases hd : decodeItems 0 elements with
      | error d =>
        cases d <;> simp [decodeOrder, hd, Diagnostics.HasError, Diagnostic.Severity] at h
        all_goals
          exfalso
          clear h
          revert hd
          generalize (0 : Nat) = idx
          intro hd
          induction elements generalizing idx with
          | nil => simp [decodeItems] at hd
          | cons e rest ih =>
            cases e with
            | null => simp [decodeItems] at hd
            | unknown => simp [decodeItems] at hd
            | known a b =>
              simp only [decodeItems] at hd
              cases hr : decodeItems (idx + 1) rest with
              | error d2 =>
                rw [hr] at hd
                simp only [Except.error.injEq] at hd
                subst hd
                exact ih _ hr
              | ok l => simp [hr] at hd
      | ok items =>
        have hrt := decodeItems_encode elements 0 items hd
        simp [decodeOrder, hd, encodeOrder, hrt]

/-- C3, as stated, fails: on the plan of a new order, Create succeeds (it
writes the state and no diagnostic) without a call on the client, and writes
the same state for a resource with a client and for one without. -/
theorem Create_succeeds_without_client_call :
    orderResource.Create { client := some exampleClient } { Plan := examplePlan }
        freshCreateResponse = ({ State := exampleState, Diagnostics := [] }, []) ∧
      orderResource.Create { client := none } { Plan := examplePlan }
        freshCreateResponse = ({ State := exampleState, Diagnostics := [] }, []) := by
  constructor <;> rfl

/-- C3, amended: no CRUD handler of the order resource calls the client.
Create, Read, Update and Delete each return with no call made on r.client, and
what each returns is the same for every receiver, so the state written is
determined by the request and the response on entry alone. -/
theorem handlers_make_no_client_call (r r2 : orderResource) :
    (∀ req resp, (orderResource.Create r req resp).2 = [] ∧
      orderResource.Create r req resp = orderResource.Create r2 req resp) ∧
    (∀ req resp, (orderResource.Read r req resp).2 = [] ∧
      orderResource.Read r req resp = orderResource.Read r2 req resp) ∧
    (∀ req resp, (orderResource.Update r req resp).2 = [] ∧
      orderResource.Update r req resp = orderResource.Update r2 req resp) ∧
    (∀ req resp, (orderResource.Delete r req resp).2 = [] ∧
      orderResource.Delete r req resp = orderResource.Delete r2 req resp) := by
  refine ⟨fun req resp => ⟨?_, rfl⟩, fun req resp => ⟨?_, rfl⟩, fun req resp => ⟨?_, rfl⟩,
    fun req resp => ⟨rfl, rfl⟩⟩
  · unfold orderResource.Create
    simp only []
    split <;> rfl
  · unfold orderResource.Read
    simp only []
    split <;> rfl
  · unfold orderResource.Update
    simp only []
    split <;> rfl

/-- C4, as stated, fails: the plan with the same fully known item twice
decodes into an orderResourceModel without error, and on it Create writes no
state; it reports the error "Duplicate Set Element" and leaves the state as it
was on entry. -/
theorem Create_rejects_duplicate_items :
    Diagnostics.HasError (Plan.Get duplicatePlan).2 = false ∧
      orderResource.Create { client := some exampleClient } { Plan := duplicatePlan }
          freshCreateResponse =
        ({ State := { Raw := .null },
           Diagnostics :=
             [.duplicateSetElement ["item"] (.known (.known false) (.known true))] }, []) := by
  constructor <;> rfl

/-- C4, amended: for every plan that decodes into an orderResourceModel
without error (and a response that holds no error on entry), when no fully
known item of the plan is equal to a later item, Create writes the state whose
id is the known string "42", the numeral of IRRELEVANT_INT, whatever id the
plan carried, and whose items are the items of the plan, in order and with both
flags unchanged, and it adds no diagnostic; when a fully known item is equal
to a later one, Create leaves the state as it was on entry and the diagnostics
hold an error. -/
theorem Create_writes_state_unless_duplicate (r : orderResource) (req : CreateRequest)
    (resp : CreateResponse)
    (hdec : Diagnostics.HasError (req.Plan.Get).2 = false)
    (hresp : Diagnostics.HasError resp.Diagnostics = false) :
    (DistinctKnown req.Plan.Raw.itemElements →
      ∃ id item, req.Plan.Raw = .known id item ∧
        orderResource.Create r req resp =
          ({ State := { Raw := .known (.known "42") item },
             Diagnostics := resp.Diagnostics }, []) ∧
        strconv.Itoa IRRELEVANT_INT = "42" ∧
        State.Get { Raw := .known (.known "42") item } =
          ({ ID := .known "42", Items := (req.Plan.Get).1.Items }, [])) ∧
    (¬ DistinctKnown req.Plan.Raw.itemElements →
      (orderResource.Create r req resp).1.State = resp.State ∧
        Diagnostics.HasError (orderResource.Create r req resp).1.Diagnostics = true) := by
  obtain ⟨id, item, hraw, hnil, hid, hrt, hset⟩ := decodeOrder_ok req.Plan.Raw hdec
  have h42 := hset (.known (strconv.Itoa IRRELEVANT_INT))
  have hitems : (encodeOrder { (decodeOrder req.Plan.Raw).1 with
      ID := .known (strconv.Itoa IRRELEVANT_INT) }).itemElements = req.Plan.Raw.itemElements := by
    rw [h42, hraw]
    cases item <;> rfl
  constructor
  · intro hdist
    refine ⟨id, item, hraw, ?_, rfl, ?_⟩
    · unfold orderResource.Create
      simp only [Plan.Get, hnil, Diagnostics.Append_nil, hresp]
      rw [State.Set_of_distinct _ _ (hitems ▸ hdist), h42]
      rfl
    · have h42b := hset (.known "42")
      rw [State.Get, ← h42b, decodeOrder_encodeOrder]
      rfl
  · intro hdup
    have hs := State.Set_of_duplicate resp.State
      { (decodeOrder req.Plan.Raw).1 with ID := .known (strconv.Itoa IRRELEVANT_INT) }
      (hitems ▸ hdup)
    unfold orderResource.Create
    simp only [Plan.Get, hnil, Diagnostics.Append_nil, hresp]
    exact ⟨hs.1, Diagnostics.HasError_Append_right _ _ hs.2⟩

/-- C5, as stated, fails: the prior state with the same fully known item twice
decodes into an orderResourceModel without error, and on it Read adds the error
"Duplicate Set Element" and does not set the state of the response. -/
theorem Read_rejects_duplicate_items :
    Diagnostics.HasError (State.Get duplicateState).2 = false ∧
      orderResource.Read { client := some exampleClient } { State := duplicateState }
          { State := { Raw := .null }, Diagnostics := [] } =
        ({ State := { Raw := .null },
           Diagnostics :=
             [.duplicateSetElement ["item"] (.known (.known false) (.known true))] }, []) := by
  constructor <;> rfl

/-- C5, amended: for every prior state that decodes into an orderResourceModel
without error (and a response that holds no error on entry), when no fully
known item of the state is equal to a later item, Read sets the refreshed state
to the prior state and adds no diagnostic, and a second Read on the refreshed
state gives that state again; when a fully known item is equal to a later one,
Read leaves the state of the response as it was on entry and the diagnostics
hold an error. -/
theorem Read_keeps_state_unless_duplicate (r : orderResource) (req : ReadRequest)
    (resp : ReadResponse)
    (hdec : Diagnostics.HasError (req.State.Get).2 = false)
    (hresp : Diagnostics.HasError resp.Diagnostics = false) :
    (DistinctKnown req.State.Raw.itemElements →
      orderResource.Read r req resp =
          ({ State := req.State, Diagnostics := resp.Diagnostics }, []) ∧
        ∀ resp2 : ReadResponse, Diagnostics.HasError resp2.Diagnostics = false →
          orderResource.Read r { State := (orderResource.Read r req resp).1.State } resp2 =
            ({ State := (orderResource.Read r req resp).1.State,
               Diagnostics := resp2.Diagnostics }, [])) ∧
    (¬ DistinctKnown req.State.Raw.itemElements →
      (orderResource.Read r req resp).1.State = resp.State ∧
        Diagnostics.HasError (orderResource.Read r req resp).1.Diagnostics = true) := by
  obtain ⟨id, item, hraw, hnil, hid, hrt, hset⟩ := decodeOrder_ok req.State.Raw hdec
  have hitems : (encodeOrder (decodeOrder req.State.Raw).1).itemElements =
      req.State.Raw.itemElements := by
    rw [hrt]
  constructor
  · intro hdist
    have key : ∀ resp3 : ReadResponse, Diagnostics.HasError resp3.Diagnostics = false →
        orderResource.Read r req resp3 =
          ({ State := req.State, Diagnostics := resp3.Diagnostics }, []) := by
      intro resp3 h3
      unfold orderResource.Read
      simp only [State.Get, hnil, Diagnostics.Append_nil, h3]
      rw [State.Set_of_distinct _ _ (hitems ▸ hdist), hrt]
      rfl
    refine ⟨key resp hresp, ?_⟩
    intro resp2 h2
    rw [key resp hresp]
    exact key resp2 h2
  · intro hdup
    have hs := State.Set_of_duplicate resp.State (decodeOrder req.State.Raw).1 (hitems ▸ hdup)
    unfold orderResource.Read
    simp only [State.Get, hnil, Diagnostics.Append_nil, hresp]
    exact ⟨hs.1, Diagnostics.HasError_Append_right _ _ hs.2⟩

/-- C6: Configure takes the client over exactly when it is given one.  With
nil provider data the receiver and the response are unchanged; with a
*hashicups.Client the receiver's client becomes that client and the response is
unchanged; with provider data of another type the receiver is unchanged and
the one error diagnostic naming the type is appended (to a response that does
not hold that very diagnostic already, as none does on entry). -/
theorem Configure_takes_client (r : orderResource) (req : ConfigureRequest)
    (resp : ConfigureResponse) :
    (req.ProviderData = .nil → orderResource.Configure r req resp = (r, resp)) ∧
    (∀ c, req.ProviderData = .client c →
      orderResource.Configure r req resp = ({ client := c }, resp)) ∧
    (∀ t, req.ProviderData = .other t →
      Diagnostics.Contains resp.Diagnostics (unexpectedConfigureType t) = false →
      orderResource.Configure r req resp =
        (r, { Diagnostics := resp.Diagnostics ++ [unexpectedConfigureType t] }) ∧
      (unexpectedConfigureType t).Severity = .error) := by
  refine ⟨?_, ?_, ?_⟩
  · intro h
    simp [orderResource.Configure, h]
  · intro c h
    simp [orderResource.Configure, h]
  · intro t h hc
    refine ⟨?_, rfl⟩
    simp [orderResource.Configure, h, Diagnostics.Append, hc]

/-! ## The statements at concrete inputs -/

theorem distinctItemsRequest_items :
    ∀ e ∈ distinctItemsRequest.ConfigValue.elements, IsItemObject e := by
  intro e he
  simp only [distinctItemsRequest, itemsRequest, List.mem_cons, List.mem_singleton,
    List.not_mem_nil, or_false] at he
  rcases he with rfl | rfl <;> exact ⟨_, _, rfl⟩

theorem distinctItemsRequest_WellTyped : distinctItemsRequest.ConfigValue.WellTyped :=
  itemsRequest_WellTyped _ distinctItemsRequest_items

theorem knownItemsRequest_items :
    ∀ e ∈ (itemsRequest [itemObject (.known true) (.known false)]).ConfigValue.elements,
      IsItemObject e := by
  intro e he
  simp only [itemsRequest, List.mem_singleton] at he
  subst he
  exact ⟨_, _, rfl⟩

theorem extraAttributeRequest_WellTyped : extraAttributeRequest.ConfigValue.WellTyped := by
  refine ⟨?_, fun hs => absurd rfl hs⟩
  intro e he
  simp only [extraAttributeRequest, List.mem_singleton] at he
  subst he
  rfl

/-- C1 at the config of two items, one of them with a null flag. -/
theorem PlanModifySet_unset_flags_false_witness :
    distinctItemsRequest.ConfigValue.WellTyped ∧
    (∀ e ∈ distinctItemsRequest.ConfigValue.elements, IsItemObject e) ∧
    ∃ planned : List Value,
      theModifier.PlanModifySet distinctItemsRequest freshSetResponse =
        .ok { PlanValue := ⟨distinctItemsRequest.ConfigValue.elementType, .known, planned⟩,
              Diagnostics := freshSetResponse.Diagnostics } ∧
      planned.length = distinctItemsRequest.ConfigValue.elements.length ∧
      ∀ (i : Nat) (e : Value), distinctItemsRequest.ConfigValue.elements[i]? = some e →
        ∃ p, planned[i]? = some p ∧
          ∀ name, (name = "flag_a" ∨ name = "flag_b") →
            ∀ v, e.Attribute name = some v → (v.IsNull = true ∨ v.IsUnknown = true) →
              p.Attribute name = some (BoolValueOf false) :=
  ⟨distinctItemsRequest_WellTyped, distinctItemsRequest_items,
    PlanModifySet_unset_flags_false distinctItemsRequest freshSetResponse
      distinctItemsRequest_WellTyped distinctItemsRequest_items⟩

/-- C2 at the config of one item with both flags known: the planned set holds
that item. -/
theorem PlanModifySet_known_flags_untouched_witness :
    (itemsRequest [itemObject (.known true) (.known false)]).ConfigValue.WellTyped ∧
    (∀ e ∈ (itemsRequest [itemObject (.known true) (.known false)]).ConfigValue.elements,
      IsItemObject e) ∧
    theModifier.PlanModifySet (itemsRequest [itemObject (.known true) (.known false)])
        freshSetResponse =
      .ok { PlanValue := ⟨itemType, .known, [itemObject (.known true) (.known false)]⟩,
            Diagnostics := [] } := by
  refine ⟨itemsRequest_WellTyped _ knownItemsRequest_items, knownItemsRequest_items, ?_⟩
  obtain ⟨planned, hrun, _, _, hall⟩ :=
    PlanModifySet_known_flags_untouched (itemsRequest [itemObject (.known true) (.known false)])
      freshSetResponse (itemsRequest_WellTyped _ knownItemsRequest_items) knownItemsRequest_items
  have hplanned : planned = [itemObject (.known true) (.known false)] := by
    apply hall
    intro e he name hn
    simp only [itemsRequest, List.mem_singleton] at he
    subst he
    rcases hn with rfl | rfl
    · exact ⟨true, rfl⟩
    · exact ⟨false, rfl⟩
  rw [hrun, hplanned]
  rfl

/-- C8 at the config of two items, one of them with a null flag. -/
theorem PlanModifySet_idempotent_witness :
    distinctItemsRequest.ConfigValue.WellTyped ∧
    (∀ e ∈ distinctItemsRequest.ConfigValue.elements, IsItemObject e) ∧
    ∃ resp1 : SetResponse,
      theModifier.PlanModifySet distinctItemsRequest freshSetResponse = .ok resp1 ∧
      (∀ (req2 : SetRequest) (resp2 : SetResponse), req2.ConfigValue = resp1.PlanValue →
        theModifier.PlanModifySet req2 resp2 =
          .ok { PlanValue := resp1.PlanValue, Diagnostics := resp2.Diagnostics }) ∧
      (∀ p ∈ resp1.PlanValue.elements, ∀ name, (name = "flag_a" ∨ name = "flag_b") →
        ∃ b : Bool, p.Attribute name = some (BoolValueOf b)) :=
  ⟨distinctItemsRequest_WellTyped, distinctItemsRequest_items,
    PlanModifySet_idempotent distinctItemsRequest freshSetResponse
      distinctItemsRequest_WellTyped distinctItemsRequest_items⟩

/-- C9 at the config of two distinct items: the planned elements at positions
0 and 1 exist and are equal exactly when the two items agree on each flag
after null and unknown are replaced by false. -/
theorem PlanModifySet_merges_items_witness :
    distinctItemsRequest.ConfigValue.WellTyped ∧
    (∀ e ∈ distinctItemsRequest.ConfigValue.elements, IsItemObject e) ∧
    ∃ planned : List Value,
      theModifier.PlanModifySet distinctItemsRequest freshSetResponse =
        .ok { PlanValue := ⟨distinctItemsRequest.ConfigValue.elementType, .known, planned⟩,
              Diagnostics := freshSetResponse.Diagnostics } ∧
      ∀ (i j : Nat) (e1 e2 : Value),
        distinctItemsRequest.ConfigValue.elements[i]? = some e1 →
        distinctItemsRequest.ConfigValue.elements[j]? = some e2 →
        ∃ p1 p2, planned[i]? = some p1 ∧ planned[j]? = some p2 ∧
          (p1 = p2 ↔
            ∀ name, (name = "flag_a" ∨ name = "flag_b") →
              (e1.Attribute name).map Value.orFalse =
                (e2.Attribute name).map Value.orFalse) :=
  ⟨distinctItemsRequest_WellTyped, distinctItemsRequest_items,
    PlanModifySet_merges_items.2 distinctItemsRequest freshSetResponse
      distinctItemsRequest_WellTyped distinctItemsRequest_items⟩

/-- C7, amended, at the config of one object with a third attribute: the run
returns, with an error diagnostic and the plan value as it was. -/
theorem PlanModifySet_returns_plan_or_error_witness :
    extraAttributeRequest.ConfigValue.WellTyped ∧
    (∀ e ∈ extraAttributeRequest.ConfigValue.elements, e.HasFlags) ∧
    ∃ resp1, theModifier.PlanModifySet extraAttributeRequest freshSetResponse = .ok resp1 ∧
      Diagnostics.HasError resp1.Diagnostics = true ∧
      resp1.PlanValue = freshSetResponse.PlanValue := by
  have hflags : ∀ e ∈ extraAttributeRequest.ConfigValue.elements, e.HasFlags := by
    intro e he
    simp only [extraAttributeRequest, List.mem_singleton] at he
    subst he
    exact ⟨_, _, rfl, rfl⟩
  have h := PlanModifySet_returns_plan_or_error extraAttributeRequest freshSetResponse
    extraAttributeRequest_WellTyped
  obtain ⟨resp1, hrun⟩ := h.1 hflags
  refine ⟨extraAttributeRequest_WellTyped, hflags, resp1, hrun, ?_⟩
  rcases h.2 resp1 hrun with ⟨hd, _, _, _⟩ | hright
  · exfalso
    have hrun2 : theModifier.PlanModifySet extraAttributeRequest freshSetResponse =
        .ok { PlanValue := freshSetResponse.PlanValue,
              Diagnostics := [.missingObjectAttributeValue "flag_c" .bool] } := rfl
    rw [hrun2, Except.ok.injEq] at hrun
    subst hrun
    simp [freshSetResponse] at hd
  · exact hright

theorem examplePlan_distinct : DistinctKnown examplePlan.Raw.itemElements := by
  simp [DistinctKnown, examplePlan, RawOrder.itemElements]

theorem exampleState_distinct : DistinctKnown exampleState.Raw.itemElements := by
  simp [DistinctKnown, exampleState, RawOrder.itemElements]

/-- C4, amended, at the plan of a new order with one item. -/
theorem Create_writes_state_unless_duplicate_witness :
    Diagnostics.HasError (Plan.Get examplePlan).2 = false ∧
    Diagnostics.HasError freshCreateResponse.Diagnostics = false ∧
    DistinctKnown examplePlan.Raw.itemElements ∧
    ∃ id item, examplePlan.Raw = .known id item ∧
      orderResource.Create { client := some exampleClient } { Plan := examplePlan }
          freshCreateResponse =
        ({ State := { Raw := .known (.known "42") item },
           Diagnostics := freshCreateResponse.Diagnostics }, []) ∧
      strconv.Itoa IRRELEVANT_INT = "42" ∧
      State.Get { Raw := .known (.known "42") item } =
        ({ ID := .known "42", Items := (Plan.Get examplePlan).1.Items }, []) :=
  ⟨rfl, rfl, examplePlan_distinct,
    (Create_writes_state_unless_duplicate { client := some exampleClient }
      { Plan := examplePlan } freshCreateResponse rfl rfl).1 examplePlan_distinct⟩

/-- C5, amended, at the state of an order with one item. -/
theorem Read_keeps_state_unless_duplicate_witness :
    Diagnostics.HasError (State.Get exampleState).2 = false ∧
    Diagnostics.HasError (freshReadResponse exampleState).Diagnostics = false ∧
    DistinctKnown exampleState.Raw.itemElements ∧
    orderResource.Read { client := some exampleClient } { State := exampleState }
        (freshReadResponse exampleState) =
      ({ State := exampleState, Diagnostics := [] }, []) :=
  ⟨rfl, rfl, exampleState_distinct,
    ((Read_keeps_state_unless_duplicate { client := some exampleClient }
      { State := exampleState } (freshReadResponse exampleState) rfl rfl).1
        exampleState_distinct).1⟩

/-- C6 at provider data of the type string, on a response with no
diagnostics: the one error is added and the client stays nil. -/
theorem Configure_takes_client_witness :
    Diagnostics.Contains [] (unexpectedConfigureType "string") = false ∧
    orderResource.Configure { client := none } { ProviderData := .other "string" }
        { Diagnostics := [] } =
      ({ client := none }, { Diagnostics := [unexpectedConfigureType "string"] }) :=
  ⟨rfl,
    ((Configure_takes_client { client := none } { ProviderData := .other "string" }
      { Diagnostics := [] }).2.2 "string" rfl rfl).1⟩

end Provider
